import Mathlib

/-!
Verification development for the go-avalanria proof-of-work consensus
engine and its full-node facade.  Definitions are shallow embeddings of
the Go sources under src/ where those sources exist; components of the
consensus engine whose sources are not part of this tree are modelled
from the specification, and each such definition carries a doc comment
saying so.
-/

namespace Avalanria

/-! ## Parameters and facade helpers (src/avn/backend.go) -/

/-- params.MaximumExtraDataSize: the cap on header extra-data length. -/
def MaximumExtraDataSize : Nat := 32

/-- makeExtraData from src/avn/backend.go.  An empty input is replaced by
the default RLP-encoded version/client data (which depends on the build
environment, so it is a parameter here); any candidate longer than
MaximumExtraDataSize is replaced by nil (the empty slice). -/
def makeExtraData (defaultExtra : List Nat) (extra : List Nat) : List Nat :=
  let e := if extra.length = 0 then defaultExtra else extra
  if MaximumExtraDataSize < e.length then [] else e

/-- Errors that New from src/avn/backend.go can return. -/
inductive NewError
  | lightSyncMode
  | invalidSyncMode
  | later (msg : Nat)
  deriving DecidableEq, Repr

/-- The configuration fields of avnconfig.Config that the sync-mode guard
of New reads. -/
structure AvnConfig where
  syncMode : Nat
  deriving DecidableEq, Repr

/-- New from src/avn/backend.go, up to its sync-mode guard.  The
downloader package defining SyncMode.IsValid and LightSync is external,
so both are parameters; the remainder of the construction (which may
itself fail) is the parameter rest. -/
def New (isValid : Nat → Bool) (lightSync : Nat) (config : AvnConfig)
    (rest : Option α × Option NewError) : Option α × Option NewError :=
  if config.syncMode = lightSync then (none, some .lightSyncMode)
  else if !(isValid config.syncMode) then (none, some .invalidSyncMode)
  else rest

/-- StartMining from src/avn/backend.go: the thread count handed to the
consensus engine via SetThreads.  A requested count of 0 is mapped to -1
to disable the miner from within. -/
def startMiningThreads (threads : Int) : Int :=
  if threads = 0 then -1 else threads

/-- StopMining from src/avn/backend.go always hands -1 to SetThreads. -/
def stopMiningThreads : Int := -1

/-! ## SealingCoordinator worker spawning (modelled) -/

/-- Modelled from the spec: the SealingCoordinator source is not in this
tree.  Section 4.3 says seal spawns N worker threads where N is the
configured thread count and a count of 0 or negative disables local
sealing, so no workers are spawned for a non-positive count. -/
def numSealWorkers (threads : Int) : Nat :=
  if threads ≤ 0 then 0 else threads.toNat

/-- Modelled from the spec: local sealing runs one nonce search per
spawned worker (each scanning its own slice of the nonce space, here the
parameter search, indexed by worker id) and delivers the first result
found; with no workers no local result is ever delivered. -/
def sealLocal (threads : Int) (search : Nat → Option (Nat × Nat)) :
    Option (Nat × Nat) :=
  (List.range (numSealWorkers threads)).findSome? search

/-! ## VerificationEngine (modelled) -/

/-- Modelled from the spec: EPOCH_LENGTH = 30000 (section 3); the epoch
store and verification engine sources are not in this tree. -/
def epochLength : Nat := 30000

/-- Modelled from the spec: Epoch = floor(blockNumber / EPOCH_LENGTH). -/
def epochOf (number : Nat) : Nat := number / epochLength

/-- The header type consumed from collaborators (section 6): number,
nonce, declared mix digest and seal hash; the difficulty target is
obtained through the external targetFor primitive. -/
structure Header where
  number : Nat
  nonce : Nat
  mixDigest : Nat
  sealHash : Nat
  deriving DecidableEq, Repr

/-- The error kinds of section 7. -/
inductive PowError
  | invalidMixDigest
  | difficultyTooHigh
  | noMiningWork
  | engineStopped
  | generationFailed
  deriving DecidableEq, Repr

/-- Modelled from the spec: verify from section 4.2.  It recomputes
computeHash over the cache for the epoch of the header, checks that the
recomputed mix digest matches the declared one exactly, and passes only
when the numeric hash is strictly below targetFor of the header; the two
failures are the distinct kinds InvalidMixDigest and DifficultyTooHigh.
The external primitives computeHash, targetFor and the cache lookup are
parameters. -/
def verify (computeHash : Nat → List Nat → Nat → Nat × Nat)
    (targetFor : Header → Nat) (cacheFor : Nat → List Nat)
    (header : Header) : Except PowError Unit :=
  let out := computeHash header.sealHash (cacheFor (epochOf header.number)) header.nonce
  if out.1 ≠ header.mixDigest then .error .invalidMixDigest
  else if targetFor header ≤ out.2 then .error .difficultyTooHigh
  else .ok ()

/-! ## RemoteSealer (modelled) -/

/-- Modelled from the spec: RemoteWorkItem from section 3: the hash to
solve, the epoch seed hash, the target and the block number. -/
structure WorkItem where
  hash : Nat
  seedHash : Nat
  target : Nat
  number : Nat
  deriving DecidableEq, Repr

/-- Modelled from the spec: HashrateEntry from section 3: reporter id,
reported rate and the timestamp of the last update. -/
structure HashrateEntry where
  id : Nat
  rate : Nat
  lastUpdate : Nat
  deriving DecidableEq, Repr

/-- Modelled from the spec: the state owned by the single-threaded
RemoteSealer event loop (section 4.4): the bounded work-item history
(newest first), the current item, the running flag cleared by Close, the
hashrate map, the hashes whose solution has already been delivered, and
the results forwarded to the active SealJob sink. -/
structure RemoteState where
  works : List WorkItem
  currentWork : Option WorkItem
  running : Bool
  rates : List HashrateEntry
  accepted : List Nat
  sink : List (Nat × Nat × Nat)
  deriving DecidableEq, Repr

/-- The state of a freshly constructed engine: no work ever issued. -/
def remoteInit : RemoteState := ⟨[], none, true, [], [], []⟩

/-- Modelled from the spec: on a new local SealJob starting, the loop
builds a RemoteWorkItem, pushes it onto the bounded history (the oldest
item beyond the fixed depth is evicted) and stores it as current. -/
def onNewWork (depth : Nat) (item : WorkItem) (s : RemoteState) : RemoteState :=
  { s with works := (item :: s.works).take depth, currentWork := some item }

/-- Modelled from the spec: Close transitions the engine to stopped. -/
def onClose (s : RemoteState) : RemoteState := { s with running := false }

/-- Modelled from the spec: GetWork returns the current work item encoded
as [hash, seedHash, target, blockNumber], and fails with NoMiningWork if
no job has ever started or the engine is stopped (section 4.4). -/
def getWork (s : RemoteState) : Except PowError (List Nat) :=
  match s.currentWork with
  | some w =>
    if s.running then .ok [w.hash, w.seedHash, w.target, w.number]
    else .error .noMiningWork
  | none => .error .noMiningWork

/-- Modelled from the spec: the check SubmitWork runs for a proposed
solution against the retained item it matched: recompute the hash (the
external primitive computeHash is already closed over the cache for the
item epoch), check the mix digest, and require the result to be strictly
below the item target. -/
def verifyAgainst (computeHash : Nat → Nat → Nat × Nat) (w : WorkItem)
    (nonce mix : Nat) : Except PowError Unit :=
  let out := computeHash w.hash nonce
  if out.1 ≠ mix then .error .invalidMixDigest
  else if w.target ≤ out.2 then .error .difficultyTooHigh
  else .ok ()

/-- Modelled from the spec: SubmitWork searches the work-item history for
an item whose hash matches, verifies the proposed solution against that
item target, and on first success records the hash as delivered and
forwards the result to the SealJob sink when the item is still current;
it returns a plain boolean, absorbing every verification error into a
false return (section 4.4 and section 8). -/
def submitWork (computeHash : Nat → Nat → Nat × Nat) (nonce hash mix : Nat)
    (s : RemoteState) : Bool × RemoteState :=
  if s.running then
    match s.works.find? (fun w => w.hash == hash) with
    | none => (false, s)
    | some w =>
      match verifyAgainst computeHash w nonce mix with
      | .error _ => (false, s)
      | .ok () =>
        if hash ∈ s.accepted then (false, s)
        else
          (true,
            { s with
              accepted := hash :: s.accepted,
              sink :=
                match s.currentWork with
                | some cw =>
                  if cw.hash = hash then s.sink ++ [(hash, nonce, mix)] else s.sink
                | none => s.sink })
  else (false, s)

/-- Modelled from the spec: SubmitHashrate upserts a HashrateEntry keyed
by the reporter id with the current timestamp, and returns false only if
the engine is stopped. -/
def submitHashrate (id rate now : Nat) (s : RemoteState) : Bool × RemoteState :=
  if s.running then
    (true, { s with rates := ⟨id, rate, now⟩ :: s.rates.filter (fun e => e.id ≠ id) })
  else (false, s)

/-- Modelled from the spec: an entry is fresh when its last update lies
within the staleness window of the query time. -/
def freshEntry (window now : Nat) (e : HashrateEntry) : Bool :=
  now - e.lastUpdate ≤ window

/-- Modelled from the spec: Hashrate sums the local worker-measured rate
plus the rate of every non-stale remote entry; stale entries are
skipped. -/
def hashrate (window now localRate : Nat) (s : RemoteState) : Nat :=
  localRate +
    s.rates.foldr (fun e acc => if freshEntry window now e then e.rate + acc else acc) 0

/-- Modelled from the spec: a sequence of SubmitWork calls for the same
hash (each with its own nonce and mix digest), serialized by the event
loop; the list of boolean replies, in order. -/
def runSubmits (computeHash : Nat → Nat → Nat × Nat) (hash : Nat)
    (subs : List (Nat × Nat)) (s : RemoteState) : List Bool :=
  match subs with
  | [] => []
  | (n, m) :: rest =>
    (submitWork computeHash n hash m s).1 ::
      runSubmits computeHash hash rest (submitWork computeHash n hash m s).2

/-- Modelled from the spec: the events serialized by the RemoteSealer
loop that change the work state: a new local SealJob starting for a
header, and the engine closing. -/
inductive RemoteEvent
  | newJob (h : Header)
  | close
  deriving DecidableEq, Repr

/-- Modelled from the spec: the work item built for a header when its
SealJob starts. -/
def mkWorkItem (targetFor : Header → Nat) (seedFor : Nat → Nat) (h : Header) :
    WorkItem :=
  ⟨h.sealHash, seedFor (epochOf h.number), targetFor h, h.number⟩

/-- Modelled from the spec: one step of the RemoteSealer loop on a work
event. -/
def stepRemote (depth : Nat) (targetFor : Header → Nat) (seedFor : Nat → Nat)
    (s : RemoteState) (ev : RemoteEvent) : RemoteState :=
  match ev with
  | .newJob h => onNewWork depth (mkWorkItem targetFor seedFor h) s
  | .close => onClose s

/-- Modelled from the spec: the RemoteSealer state after serializing a
trace of work events from engine construction. -/
def runRemote (depth : Nat) (targetFor : Header → Nat) (seedFor : Nat → Nat)
    (trace : List RemoteEvent) : RemoteState :=
  trace.foldl (stepRemote depth targetFor seedFor) remoteInit

/-! ## SealingCoordinator job lifecycle (modelled) -/

/-- Modelled from the spec: the events driving the SealingCoordinator
state machine of section 4.3: seal(h) starting a new job for the header
identified by h (superseding and aborting the prior job), and a worker of
the job for h finding a solution (nonce, mix). -/
inductive SealEvent
  | start (h : Nat)
  | found (h : Nat) (nonce : Nat) (mix : Nat)
  deriving DecidableEq, Repr

/-- Modelled from the spec: the coordinator state: the header of the one
currently Sealing job, if any, and the results delivered so far on the
result channels, each tagged with the header it was sealed for, in
delivery order. -/
structure SealState where
  current : Option Nat
  delivered : List (Nat × Nat × Nat)
  deriving DecidableEq, Repr

/-- The coordinator starts Idle with nothing delivered. -/
def sealInit : SealState := ⟨none, []⟩

/-- Modelled from the spec: starting a new SealJob supersedes and aborts
any prior one; a found solution is delivered only when its job is still
the current one (a superseded job never delivers), after which the other
workers stop and the coordinator returns to Idle. -/
def stepSeal (s : SealState) (ev : SealEvent) : SealState :=
  match ev with
  | .start h => { s with current := some h }
  | .found h n m =>
    match s.current with
    | some h0 => if h0 = h then ⟨none, s.delivered ++ [(h, n, m)]⟩ else s
    | none => s

/-- Modelled from the spec: the coordinator state after a trace of seal
and worker events. -/
def runSeal (trace : List SealEvent) : SealState := trace.foldl stepSeal sealInit

/-! ## EpochStore generation futures (modelled) -/

/-- Modelled from the spec: the events of the shared-generation protocol
of one registry (section 3, generation futures): a thread requesting an
epoch (a getCache call) and the single generation of an epoch
completing. -/
inductive GenEvent
  | request (tid : Nat) (epoch : Nat)
  | finish (epoch : Nat)
  deriving DecidableEq, Repr

/-- Modelled from the spec: generation-future bookkeeping: the epochs
holding an entry (Requested, Generating or Ready), the epochs already
Ready, one log element per generation actually triggered, the threads
blocked waiting for an epoch, and the buffers handed back to callers. -/
structure GenState where
  entries : List Nat
  ready : List Nat
  started : List Nat
  waiting : List (Nat × Nat)
  delivered : List (Nat × Nat × List Nat)
  deriving DecidableEq, Repr

/-- A registry starts with no entries. -/
def genInit : GenState := ⟨[], [], [], [], []⟩

/-- Modelled from the spec: a request for a Ready epoch returns its
buffer at once; a request for an epoch whose entry exists joins the
generation in progress; a request for an absent epoch triggers the
generation exactly then.  A finish event makes the epoch Ready and hands
the one generated buffer to every waiting thread.  Buffers are derived
deterministically from the epoch by the external generate function. -/
def stepGen (generate : Nat → List Nat) (s : GenState) (ev : GenEvent) : GenState :=
  match ev with
  | .request tid e =>
    if e ∈ s.ready then
      { s with delivered := s.delivered ++ [(tid, e, generate e)] }
    else if e ∈ s.entries then
      { s with waiting := s.waiting ++ [(tid, e)] }
    else
      { s with entries := e :: s.entries, started := e :: s.started,
               waiting := s.waiting ++ [(tid, e)] }
  | .finish e =>
    if e ∈ s.entries ∧ e ∉ s.ready then
      { s with ready := e :: s.ready,
               delivered := s.delivered ++
                 ((s.waiting.filter (fun p => p.2 = e)).map
                   (fun p => (p.1, e, generate e))),
               waiting := s.waiting.filter (fun p => p.2 ≠ e) }
    else s

/-- Modelled from the spec: the registry state after an interleaving of
request and completion events. -/
def runGen (generate : Nat → List Nat) (trace : List GenEvent) : GenState :=
  trace.foldl (stepGen generate) genInit

/-- The bookkeeping invariant of the shared-generation protocol: a
generation was triggered for exactly the epochs holding an entry, each at
most once; Ready epochs hold entries; and every delivered buffer is the
generated buffer of its epoch. -/
def genInv (generate : Nat → List Nat) (s : GenState) : Prop :=
  (∀ e, e ∈ s.started ↔ e ∈ s.entries) ∧
  s.started.Nodup ∧
  (∀ e ∈ s.ready, e ∈ s.entries) ∧
  (∀ d ∈ s.delivered, d.2.2 = generate d.2.1)

/-! ## EpochStore LRU registries (modelled) -/

/-- Modelled from the spec: one LRU registry of the EpochStore (section
3): the in-memory items (epoch and buffer, most recently used first) and
the on-disk epoch files (most recently written first). -/
structure LRUState where
  mem : List (Nat × List Nat)
  disk : List Nat
  deriving DecidableEq, Repr

/-- An empty registry. -/
def lruInit : LRUState := ⟨[], []⟩

/-- Modelled from the spec: one access (getCache or getDataset) on one
registry (section 4.1).  A hit moves the epoch to the most recently used
position.  A miss regenerates or reloads the deterministic buffer,
inserts it at the most recently used position, lazily spills the least
recently used items beyond the InMem window to disk, and deletes the
least recently used on-disk files beyond the OnDisk window. -/
def accessEpoch (inMem onDisk : Nat) (generate : Nat → List Nat) (e : Nat)
    (st : LRUState) : List Nat × LRUState :=
  match st.mem.find? (fun p => p.1 == e) with
  | some hit =>
    (hit.2, ⟨(e, hit.2) :: st.mem.eraseP (fun p => p.1 == e), st.disk⟩)
  | none =>
    let buf := generate e
    let mem1 := (e, buf) :: st.mem
    let spill := (mem1.drop inMem).map Prod.fst
    (buf, ⟨mem1.take inMem,
           (spill ++ st.disk.filter (fun d => d ∉ spill)).take onDisk⟩)

/-- Modelled from the spec: the window configuration of the two
registries: cachesInMemory, cachesOnDisk, datasetsInMemory and
datasetsOnDisk (section 6). -/
structure StoreConfig where
  cachesInMem : Nat
  cachesOnDisk : Nat
  datasetsInMem : Nat
  datasetsOnDisk : Nat
  deriving DecidableEq, Repr

/-- Modelled from the spec: the EpochStore holds two independent LRU
registries, one for Caches and one for Datasets. -/
structure StoreState where
  caches : LRUState
  datasets : LRUState
  deriving DecidableEq, Repr

/-- The store of a freshly constructed engine. -/
def storeInit : StoreState := ⟨lruInit, lruInit⟩

/-- Modelled from the spec: an epoch access, getCache(e) or
getDataset(e, full); the full flag selects partial or full dataset
generation and does not affect the eviction bookkeeping. -/
inductive EpochAccess
  | cache (e : Nat)
  | dataset (e : Nat) (full : Bool)
  deriving DecidableEq, Repr

/-- Modelled from the spec: dispatch one access to its own registry. -/
def stepStore (cfg : StoreConfig) (generateC generateD : Nat → List Nat)
    (st : StoreState) (a : EpochAccess) : StoreState :=
  match a with
  | .cache e =>
    { st with caches :=
        (accessEpoch cfg.cachesInMem cfg.cachesOnDisk generateC e st.caches).2 }
  | .dataset e _ =>
    { st with datasets :=
        (accessEpoch cfg.datasetsInMem cfg.datasetsOnDisk generateD e st.datasets).2 }

/-- Modelled from the spec: the store state after a sequence of epoch
accesses. -/
def runStore (cfg : StoreConfig) (generateC generateD : Nat → List Nat)
    (accesses : List EpochAccess) : StoreState :=
  accesses.foldl (stepStore cfg generateC generateD) storeInit

end Avalanria

/-! # Claim theorems -/

open Avalanria

/-- C9: for every extra-data input, makeExtraData returns a byte slice
whose length never exceeds params.MaximumExtraDataSize; an empty input is
replaced by the default RLP-encoded version/client data (whenever that
default itself fits the limit, which it does for the actual build
constants), and an input longer than the limit is replaced by nil rather
than truncated or passed through. -/
theorem c9_makeExtraData (defaultExtra extra : List Nat) :
    (makeExtraData defaultExtra extra).length ≤ MaximumExtraDataSize ∧
    (MaximumExtraDataSize < extra.length → makeExtraData defaultExtra extra = []) ∧
    (extra = [] → defaultExtra.length ≤ MaximumExtraDataSize →
      makeExtraData defaultExtra extra = defaultExtra) := by
  refine ⟨?_, ?_, ?_⟩
  · unfold makeExtraData
    dsimp only
    generalize (if extra.length = 0 then defaultExtra else extra) = e
    by_cases hc : MaximumExtraDataSize < e.length
    · rw [if_pos hc]
      simp
    · rw [if_neg hc]
      omega
  · intro hlong
    unfold makeExtraData
    dsimp only
    have hne : extra.length ≠ 0 := by omega
    rw [if_neg hne, if_pos hlong]
  · intro hempty hfit
    subst hempty
    unfold makeExtraData
    simp [Nat.not_lt.mpr hfit]

/-- Witness for C9 at concrete inputs: a 33-byte input is dropped to nil,
and an empty input yields the default data. -/
theorem c9_makeExtraData_witness :
    (makeExtraData [1, 2] (List.replicate 33 0)).length ≤ MaximumExtraDataSize ∧
    makeExtraData [1, 2] (List.replicate 33 0) = [] ∧
    makeExtraData [1, 2] [] = [1, 2] :=
  ⟨(c9_makeExtraData [1, 2] (List.replicate 33 0)).1,
   (c9_makeExtraData [1, 2] (List.replicate 33 0)).2.1 (by decide),
   (c9_makeExtraData [1, 2] []).2.2 rfl (by decide)⟩

/-- C10: for every configuration whose SyncMode equals LightSync, and for
every configuration whose SyncMode is invalid, New returns an error and a
nil service instance, whatever the rest of the construction would have
produced. -/
theorem c10_new_sync_guard {α : Type} (isValid : Nat → Bool) (lightSync : Nat)
    (config : AvnConfig) (rest : Option α × Option NewError)
    (h : config.syncMode = lightSync ∨ isValid config.syncMode = false) :
    (New isValid lightSync config rest).1 = none ∧
    (New isValid lightSync config rest).2.isSome = true := by
  unfold New
  rcases h with h | h
  · rw [if_pos h]
    exact ⟨rfl, rfl⟩
  · by_cases hl : config.syncMode = lightSync
    · rw [if_pos hl]
      exact ⟨rfl, rfl⟩
    · rw [if_neg hl, h]
      exact ⟨rfl, rfl⟩

/-- Witness for C10: with validity meaning a mode code at most 3 and
LightSync being code 3, both a light-sync configuration and an
out-of-range configuration are rejected. -/
theorem c10_new_sync_guard_witness :
    ((⟨3⟩ : AvnConfig).syncMode = 3 ∨ (fun m => m ≤ 3 : Nat → Bool) (⟨3⟩ : AvnConfig).syncMode = false) ∧
    (New (fun m => m ≤ 3) 3 ⟨3⟩ ((some 0 : Option Nat), none)).1 = none ∧
    (New (fun m => m ≤ 3) 3 ⟨3⟩ ((some 0 : Option Nat), none)).2.isSome = true :=
  ⟨Or.inl rfl,
   (c10_new_sync_guard (fun m => m ≤ 3) 3 ⟨3⟩ ((some 0 : Option Nat), none) (Or.inl rfl)).1,
   (c10_new_sync_guard (fun m => m ≤ 3) 3 ⟨3⟩ ((some 0 : Option Nat), none) (Or.inl rfl)).2⟩

/-- C8: a configured thread count of 0 or negative disables local
sealing: StartMining maps a requested count of 0 to SetThreads(-1), and
for every non-positive thread count the coordinator spawns no worker
threads, so no local result is ever delivered whatever each worker search
would have found. -/
theorem c8_nonpositive_threads_disable (t : Int) (h : t ≤ 0)
    (search : Nat → Option (Nat × Nat)) :
    startMiningThreads 0 = -1 ∧
    numSealWorkers t = 0 ∧
    sealLocal t search = none := by
  refine ⟨rfl, ?_, ?_⟩
  · unfold numSealWorkers
    rw [if_pos h]
  · unfold sealLocal numSealWorkers
    rw [if_pos h]
    rfl

/-- Witness for C8 at thread count -1 with a search that would otherwise
find a solution immediately. -/
theorem c8_nonpositive_threads_disable_witness :
    startMiningThreads 0 = -1 ∧
    numSealWorkers (-1) = 0 ∧
    sealLocal (-1) (fun _ => some (7, 9)) = none :=
  c8_nonpositive_threads_disable (-1) (by decide) (fun _ => some (7, 9))

/-- C7: verify passes only when the recomputed numeric hash is strictly
lower than targetFor(header); it fails with InvalidMixDigest when the
recomputed mix digest differs from the declared one, and with
DifficultyTooHigh when the mix digest matches but the hash is greater
than or equal to the target. -/
theorem c7_verify (computeHash : Nat → List Nat → Nat → Nat × Nat)
    (targetFor : Header → Nat) (cacheFor : Nat → List Nat) (header : Header) :
    (verify computeHash targetFor cacheFor header = .ok () ↔
      (computeHash header.sealHash (cacheFor (epochOf header.number)) header.nonce).1
          = header.mixDigest ∧
      (computeHash header.sealHash (cacheFor (epochOf header.number)) header.nonce).2
          < targetFor header) ∧
    ((computeHash header.sealHash (cacheFor (epochOf header.number)) header.nonce).1
        ≠ header.mixDigest →
      verify computeHash targetFor cacheFor header = .error .invalidMixDigest) ∧
    ((computeHash header.sealHash (cacheFor (epochOf header.number)) header.nonce).1
        = header.mixDigest →
      targetFor header
        ≤ (computeHash header.sealHash (cacheFor (epochOf header.number)) header.nonce).2 →
      verify computeHash targetFor cacheFor header = .error .difficultyTooHigh) := by
  unfold verify
  dsimp only
  split_ifs with hm ht
  · exact ⟨by simp [hm], fun _ => rfl, fun h _ => absurd h hm⟩
  · rw [not_not] at hm
    refine ⟨?_, fun h => absurd hm h, fun _ _ => rfl⟩
    constructor
    · intro h
      exact absurd h (by simp)
    · intro h
      omega
  · rw [not_not] at hm
    rw [Nat.not_le] at ht
    refine ⟨?_, fun h => absurd hm h, fun _ hle => absurd hle (Nat.not_le.mpr ht)⟩
    constructor
    · intro _
      exact ⟨hm, ht⟩
    · intro _
      rfl

/-- Witness for C7: with a hashing primitive returning mix 5 and value 10
against target 20, a header declaring mix 5 verifies, a header declaring
mix 6 fails with InvalidMixDigest, and against target 10 the first header
fails with DifficultyTooHigh. -/
theorem c7_verify_witness :
    verify (fun _ _ _ => (5, 10)) (fun _ => 20) (fun _ => []) ⟨1, 2, 5, 4⟩ = .ok () ∧
    verify (fun _ _ _ => (5, 10)) (fun _ => 20) (fun _ => []) ⟨1, 2, 6, 4⟩
      = .error .invalidMixDigest ∧
    verify (fun _ _ _ => (5, 10)) (fun _ => 10) (fun _ => []) ⟨1, 2, 5, 4⟩
      = .error .difficultyTooHigh :=
  ⟨(c7_verify (fun _ _ _ => (5, 10)) (fun _ => 20) (fun _ => []) ⟨1, 2, 5, 4⟩).1.mpr
      (by exact ⟨rfl, by decide⟩),
   (c7_verify (fun _ _ _ => (5, 10)) (fun _ => 20) (fun _ => []) ⟨1, 2, 6, 4⟩).2.1
      (by decide),
   (c7_verify (fun _ _ _ => (5, 10)) (fun _ => 10) (fun _ => []) ⟨1, 2, 5, 4⟩).2.2
      rfl (by decide)⟩

/-- Summing the fresh entries of a rate list by a fold equals the sum of
the rates of its fresh entries. -/
theorem foldr_fresh_sum (window now : Nat) (l : List HashrateEntry) :
    l.foldr (fun e acc => if freshEntry window now e then e.rate + acc else acc) 0 =
      ((l.filter (freshEntry window now)).map HashrateEntry.rate).sum := by
  induction l with
  | nil => rfl
  | cons a l ih =>
    by_cases h : freshEntry window now a
    · simp [List.filter_cons, h, ih]
    · simp [List.filter_cons, h, ih]

/-- C5: Hashrate returns the local worker-measured rate plus the sum of
every HashrateEntry rate whose last update lies within the staleness
window; and an entry reported at time t0 by a previously unknown reporter
and then left idle past the window contributes 0 to the sum at the later
query time. -/
theorem c5_hashrate (window now t0 localRate id rate : Nat) (s : RemoteState)
    (hrun : s.running = true)
    (hid : ∀ e ∈ s.rates, e.id ≠ id)
    (hstale : window < now - t0) :
    hashrate window now localRate s =
      localRate + ((s.rates.filter (freshEntry window now)).map HashrateEntry.rate).sum ∧
    hashrate window now localRate (submitHashrate id rate t0 s).2 =
      hashrate window now localRate s := by
  constructor
  · unfold hashrate
    rw [foldr_fresh_sum]
  · unfold submitHashrate
    rw [if_pos hrun]
    have hfilter : s.rates.filter (fun e => e.id ≠ id) = s.rates := by
      apply List.filter_eq_self.mpr
      intro e he
      simpa using hid e he
    have hfresh : freshEntry window now ⟨id, rate, t0⟩ = false := by
      unfold freshEntry
      simp only [decide_eq_false_iff_not]
      omega
    unfold hashrate
    dsimp only
    rw [hfilter, List.foldr_cons, hfresh]
    simp

/-- Witness for C5: one fresh entry of rate 100 reported at time 10,
window 5, queried at time 12; a new reporter whose entry was reported at
time 0 is stale at time 12 and leaves the total unchanged. -/
theorem c5_hashrate_witness :
    hashrate 5 12 7 ⟨[], none, true, [⟨1, 100, 10⟩], [], []⟩ =
      7 + ((([⟨1, 100, 10⟩] : List HashrateEntry).filter (freshEntry 5 12)).map
            HashrateEntry.rate).sum ∧
    hashrate 5 12 7 (submitHashrate 2 50 0 ⟨[], none, true, [⟨1, 100, 10⟩], [], []⟩).2 =
      hashrate 5 12 7 ⟨[], none, true, [⟨1, 100, 10⟩], [], []⟩ :=
  c5_hashrate 5 12 0 7 2 50 ⟨[], none, true, [⟨1, 100, 10⟩], [], []⟩ rfl
    (by decide) (by decide)

/-- The engine is running after a trace exactly when it was running
before it and no close event occurs in the trace. -/
theorem remote_running_iff (depth : Nat) (targetFor : Header → Nat)
    (seedFor : Nat → Nat) (t : List RemoteEvent) :
    ∀ s : RemoteState,
      ((t.foldl (stepRemote depth targetFor seedFor) s).running = true ↔
        (s.running = true ∧ RemoteEvent.close ∉ t)) := by
  induction t with
  | nil => intro s; simp
  | cons ev t ih =>
    intro s
    cases ev with
    | newJob h =>
      rw [List.foldl_cons, ih]
      simp [stepRemote, onNewWork]
    | close =>
      rw [List.foldl_cons, ih]
      simp [stepRemote, onClose]

/-- There is no current work item after a trace exactly when there was
none before it and no job starts in the trace. -/
theorem remote_current_none_iff (depth : Nat) (targetFor : Header → Nat)
    (seedFor : Nat → Nat) (t : List RemoteEvent) :
    ∀ s : RemoteState,
      ((t.foldl (stepRemote depth targetFor seedFor) s).currentWork = none ↔
        (s.currentWork = none ∧ ∀ h, RemoteEvent.newJob h ∉ t)) := by
  induction t with
  | nil => intro s; simp
  | cons ev t ih =>
    intro s
    cases ev with
    | newJob h =>
      rw [List.foldl_cons, ih]
      constructor
      · rintro ⟨h1, _⟩
        exact absurd h1 (by simp [stepRemote, onNewWork])
      · rintro ⟨_, h2⟩
        exact absurd (List.mem_cons_self _ _) (h2 h)
    | close =>
      rw [List.foldl_cons, ih]
      constructor
      · rintro ⟨h1, h2⟩
        refine ⟨h1, ?_⟩
        intro h hmem
        rcases List.mem_cons.mp hmem with hc | hc
        · exact RemoteEvent.noConfusion hc
        · exact h2 h hc
      · rintro ⟨h1, h2⟩
        exact ⟨h1, fun h hc => h2 h (List.mem_cons_of_mem _ hc)⟩

/-- A trace with no job start leaves the current work item unchanged. -/
theorem remote_current_const (depth : Nat) (targetFor : Header → Nat)
    (seedFor : Nat → Nat) (t : List RemoteEvent) :
    ∀ s : RemoteState, (∀ h, RemoteEvent.newJob h ∉ t) →
      (t.foldl (stepRemote depth targetFor seedFor) s).currentWork = s.currentWork := by
  induction t with
  | nil => intro s _; rfl
  | cons ev t ih =>
    intro s hno
    cases ev with
    | newJob h => exact absurd (List.mem_cons_self _ _) (hno h)
    | close =>
      rw [List.foldl_cons, ih _ (fun h hc => hno h (List.mem_cons_of_mem _ hc))]
      rfl

/-- GetWork fails, with kind NoMiningWork, exactly when there is no
current item or the engine is stopped. -/
theorem getWork_error_iff (s : RemoteState) :
    (getWork s = .error .noMiningWork ↔
      (s.currentWork = none ∨ s.running = false)) := by
  unfold getWork
  cases hc : s.currentWork with
  | none => simp
  | some w =>
    cases hr : s.running with
    | false => simp
    | true => simp

/-- GetWork succeeds on a running engine holding a current item. -/
theorem getWork_ok_of (s : RemoteState) (w : WorkItem) (hc : s.currentWork = some w)
    (hr : s.running = true) :
    getWork s = .ok [w.hash, w.seedHash, w.target, w.number] := by
  unfold getWork
  rw [hc, hr]
  rfl

/-- C6: GetWork fails with NoMiningWork exactly when no sealing job has
ever started or the engine is stopped; after at least one Seal call on a
running engine, GetWork succeeds and the first field of the returned work
item is the seal hash of the most recently sealed header. -/
theorem c6_getWork (depth : Nat) (targetFor : Header → Nat) (seedFor : Nat → Nat)
    (trace : List RemoteEvent) :
    (getWork (runRemote depth targetFor seedFor trace) = .error .noMiningWork ↔
      ((∀ h, RemoteEvent.newJob h ∉ trace) ∨ RemoteEvent.close ∈ trace)) ∧
    (∀ t₁ h t₂, trace = t₁ ++ RemoteEvent.newJob h :: t₂ →
      (∀ h₂, RemoteEvent.newJob h₂ ∉ t₂) → RemoteEvent.close ∉ trace →
      getWork (runRemote depth targetFor seedFor trace) =
        .ok [h.sealHash, seedFor (epochOf h.number), targetFor h, h.number]) := by
  constructor
  · rw [getWork_error_iff]
    unfold runRemote
    rw [remote_current_none_iff]
    constructor
    · rintro (⟨_, hno⟩ | hstop)
      · exact Or.inl hno
      · right
        by_contra hc
        have := (remote_running_iff depth targetFor seedFor trace remoteInit).mpr
          ⟨rfl, hc⟩
        rw [hstop] at this
        exact Bool.noConfusion this
    · rintro (hno | hclose)
      · exact Or.inl ⟨rfl, hno⟩
      · right
        cases hr : (trace.foldl (stepRemote depth targetFor seedFor) remoteInit).running with
        | false => rfl
        | true =>
          have := (remote_running_iff depth targetFor seedFor trace remoteInit).mp hr
          exact absurd hclose this.2
  · intro t₁ h t₂ htr hno hclose
    subst htr
    unfold runRemote
    rw [List.foldl_append, List.foldl_cons]
    have hcur :
        ((t₂.foldl (stepRemote depth targetFor seedFor)
          (stepRemote depth targetFor seedFor
            (t₁.foldl (stepRemote depth targetFor seedFor) remoteInit)
            (RemoteEvent.newJob h)))).currentWork =
          some (mkWorkItem targetFor seedFor h) := by
      rw [remote_current_const depth targetFor seedFor t₂ _ hno]
      rfl
    have hrun1 : ((t₁.foldl (stepRemote depth targetFor seedFor) remoteInit)).running
        = true := by
      rw [remote_running_iff]
      exact ⟨rfl, fun hc => hclose (List.mem_append.mpr (Or.inl hc))⟩
    have hrun :
        ((t₂.foldl (stepRemote depth targetFor seedFor)
          (stepRemote depth targetFor seedFor
            (t₁.foldl (stepRemote depth targetFor seedFor) remoteInit)
            (RemoteEvent.newJob h)))).running = true := by
      rw [remote_running_iff]
      refine ⟨?_,
        fun hc => hclose (List.mem_append.mpr (Or.inr (List.mem_cons_of_mem _ hc)))⟩
      simpa [stepRemote, onNewWork] using hrun1
    rw [getWork_ok_of _ _ hcur hrun]
    rfl

/-- Witness for C6: on a fresh engine GetWork fails with NoMiningWork,
and after sealing the header with number 1, nonce 2, mix digest 3 and
seal hash 4 (target 9, seed 5) GetWork returns that work item. -/
theorem c6_getWork_witness :
    getWork (runRemote 7 (fun _ => 9) (fun _ => 5) []) = .error .noMiningWork ∧
    getWork (runRemote 7 (fun _ => 9) (fun _ => 5) [RemoteEvent.newJob ⟨1, 2, 3, 4⟩]) =
      .ok [4, 5, 9, 1] :=
  ⟨(c6_getWork 7 (fun _ => 9) (fun _ => 5) []).1.mpr
      (Or.inl (fun h => List.not_mem_nil (RemoteEvent.newJob h))),
   (c6_getWork 7 (fun _ => 9) (fun _ => 5) [RemoteEvent.newJob ⟨1, 2, 3, 4⟩]).2
      [] ⟨1, 2, 3, 4⟩ [] rfl (fun h₂ => List.not_mem_nil (RemoteEvent.newJob h₂))
      (by decide)⟩

/-- Case analysis for submitWork: either it rejects and leaves the state
untouched, or it accepts a fresh valid solution and marks its hash as
delivered. -/
theorem submitWork_cases (c : Nat → Nat → Nat × Nat) (n hash m : Nat)
    (s : RemoteState) :
    submitWork c n hash m s = (false, s) ∨
    ((submitWork c n hash m s).1 = true ∧
      (submitWork c n hash m s).2.accepted = hash :: s.accepted ∧
      hash ∉ s.accepted) := by
  unfold submitWork
  cases hrun : s.running with
  | false => left; simp
  | true =>
    cases hfind : s.works.find? (fun w => w.hash == hash) with
    | none => left; simp
    | some w =>
      cases hver : verifyAgainst c w n m with
      | error e => left; simp [hver]
      | ok u =>
        cases u
        by_cases hacc : hash ∈ s.accepted
        · left
          simp [hver, hacc]
        · right
          simp [hver, hacc]

/-- A submission for an already delivered hash is rejected without
changing the state. -/
theorem submitWork_accepted (c : Nat → Nat → Nat × Nat) (n hash m : Nat)
    (s : RemoteState) (hacc : hash ∈ s.accepted) :
    submitWork c n hash m s = (false, s) := by
  rcases submitWork_cases c n hash m s with h | h
  · exact h
  · exact absurd hacc h.2.2

/-- Once a hash has been delivered, every further submission for it
replies false. -/
theorem runSubmits_count_zero (c : Nat → Nat → Nat × Nat) (hash : Nat)
    (subs : List (Nat × Nat)) :
    ∀ s : RemoteState, hash ∈ s.accepted →
      (runSubmits c hash subs s).count true = 0 := by
  induction subs with
  | nil => intro s _; rfl
  | cons p rest ih =>
    intro s hacc
    obtain ⟨n, m⟩ := p
    unfold runSubmits
    rw [submitWork_accepted c n hash m s hacc]
    simp only [List.count_cons]
    have := ih s hacc
    simp [this]

/-- Any serialized sequence of submissions for one hash is answered true
at most once. -/
theorem runSubmits_count_le_one (c : Nat → Nat → Nat × Nat) (hash : Nat)
    (subs : List (Nat × Nat)) :
    ∀ s : RemoteState, (runSubmits c hash subs s).count true ≤ 1 := by
  induction subs with
  | nil => intro s; simp [runSubmits]
  | cons p rest ih =>
    intro s
    obtain ⟨n, m⟩ := p
    unfold runSubmits
    rcases submitWork_cases c n hash m s with h | h
    · rw [h]
      have := ih s
      simp only [List.count_cons]
      simp [this]
    · rw [h.1]
      have hz := runSubmits_count_zero c hash rest (submitWork c n hash m s).2
        (by rw [h.2.1]; exact List.mem_cons_self _ _)
      simp [List.count_cons, hz]

/-- C3: SubmitWork returns false when the hash is not in the retained
history; returns false when the matched item fails verification, the
failure being absorbed into the boolean rather than surfaced as an
error; returns true for a fresh valid solution on a running engine,
recording the hash as delivered; returns false once the hash has been
delivered; and across any serialized sequence of submissions of one
hash, true is replied at most once. -/
theorem c3_submitWork (c : Nat → Nat → Nat × Nat) (nonce hash mix : Nat)
    (s : RemoteState) :
    (s.works.find? (fun w => w.hash == hash) = none →
      (submitWork c nonce hash mix s).1 = false) ∧
    (∀ w, s.works.find? (fun w => w.hash == hash) = some w →
      ∀ e, verifyAgainst c w nonce mix = .error e →
        (submitWork c nonce hash mix s).1 = false) ∧
    (∀ w, s.works.find? (fun w => w.hash == hash) = some w →
      verifyAgainst c w nonce mix = .ok () →
      hash ∉ s.accepted → s.running = true →
        (submitWork c nonce hash mix s).1 = true ∧
        (submitWork c nonce hash mix s).2.accepted = hash :: s.accepted) ∧
    (hash ∈ s.accepted → (submitWork c nonce hash mix s).1 = false) ∧
    (∀ subs : List (Nat × Nat), (runSubmits c hash subs s).count true ≤ 1) := by
  refine ⟨?_, ?_, ?_, ?_, fun subs => runSubmits_count_le_one c hash subs s⟩
  · intro hfind
    unfold submitWork
    cases hrun : s.running with
    | false => simp
    | true =>
      simp only [hfind]
      simp
  · intro w hfind e hver
    unfold submitWork
    cases hrun : s.running with
    | false => simp
    | true =>
      simp only [hfind, hver]
      simp
  · intro w hfind hver hacc hrun
    unfold submitWork
    rw [hrun]
    simp only [hfind, hver]
    simp [hacc]
  · intro hacc
    rw [submitWork_accepted c nonce hash mix s hacc]

/-- Witness for C3 on a running engine retaining one item of hash 10 and
target 5, with a hashing primitive returning mix 0 and value 0: an
unknown hash is rejected, a wrong mix digest is rejected, the first valid
solution is accepted and recorded, a submission after delivery is
rejected, and two successive submissions reply true at most once. -/
theorem c3_submitWork_witness :
    (submitWork (fun _ _ => (0, 0)) 0 99 0
        ⟨[⟨10, 1, 5, 2⟩], some ⟨10, 1, 5, 2⟩, true, [], [], []⟩).1 = false ∧
    (submitWork (fun _ _ => (0, 0)) 0 10 1
        ⟨[⟨10, 1, 5, 2⟩], some ⟨10, 1, 5, 2⟩, true, [], [], []⟩).1 = false ∧
    ((submitWork (fun _ _ => (0, 0)) 0 10 0
        ⟨[⟨10, 1, 5, 2⟩], some ⟨10, 1, 5, 2⟩, true, [], [], []⟩).1 = true ∧
      (submitWork (fun _ _ => (0, 0)) 0 10 0
        ⟨[⟨10, 1, 5, 2⟩], some ⟨10, 1, 5, 2⟩, true, [], [], []⟩).2.accepted = [10]) ∧
    (submitWork (fun _ _ => (0, 0)) 0 10 0
        ⟨[⟨10, 1, 5, 2⟩], some ⟨10, 1, 5, 2⟩, true, [], [10], []⟩).1 = false ∧
    (runSubmits (fun _ _ => (0, 0)) 10 [(0, 0), (0, 0)]
        ⟨[⟨10, 1, 5, 2⟩], some ⟨10, 1, 5, 2⟩, true, [], [], []⟩).count true ≤ 1 :=
  ⟨(c3_submitWork (fun _ _ => (0, 0)) 0 99 0
      ⟨[⟨10, 1, 5, 2⟩], some ⟨10, 1, 5, 2⟩, true, [], [], []⟩).1 (by decide),
   (c3_submitWork (fun _ _ => (0, 0)) 0 10 1
      ⟨[⟨10, 1, 5, 2⟩], some ⟨10, 1, 5, 2⟩, true, [], [], []⟩).2.1
      ⟨10, 1, 5, 2⟩ (by decide) .invalidMixDigest rfl,
   (c3_submitWork (fun _ _ => (0, 0)) 0 10 0
      ⟨[⟨10, 1, 5, 2⟩], some ⟨10, 1, 5, 2⟩, true, [], [], []⟩).2.2.1
      ⟨10, 1, 5, 2⟩ (by decide) rfl (by decide) rfl,
   (c3_submitWork (fun _ _ => (0, 0)) 0 10 0
      ⟨[⟨10, 1, 5, 2⟩], some ⟨10, 1, 5, 2⟩, true, [], [10], []⟩).2.2.2.1 (by decide),
   (c3_submitWork (fun _ _ => (0, 0)) 0 10 0
      ⟨[⟨10, 1, 5, 2⟩], some ⟨10, 1, 5, 2⟩, true, [], [], []⟩).2.2.2.2 [(0, 0), (0, 0)]⟩

/-- Once a header is not the current job, a trace that never restarts it
keeps it away from the current slot and delivers nothing for it. -/
theorem seal_never_again (h1 : Nat) (t : List SealEvent) :
    ∀ s : SealState, s.current ≠ some h1 → SealEvent.start h1 ∉ t →
      (t.foldl stepSeal s).current ≠ some h1 ∧
      (t.foldl stepSeal s).delivered.filter (fun r => r.1 = h1) =
        s.delivered.filter (fun r => r.1 = h1) := by
  induction t with
  | nil => intro s hcur _; exact ⟨hcur, rfl⟩
  | cons ev t ih =>
    intro s hcur hno
    have hno2 : SealEvent.start h1 ∉ t := fun hm => hno (List.mem_cons_of_mem _ hm)
    rw [List.foldl_cons]
    have hstep : (stepSeal s ev).current ≠ some h1 ∧
        (stepSeal s ev).delivered.filter (fun r => r.1 = h1) =
          s.delivered.filter (fun r => r.1 = h1) := by
      cases ev with
      | start h =>
        have hne : h ≠ h1 := fun he => hno (he ▸ List.mem_cons_self _ _)
        refine ⟨?_, rfl⟩
        intro he
        exact hne (Option.some.inj he)
      | found h n m =>
        cases hc : s.current with
        | none =>
          have hs : stepSeal s (SealEvent.found h n m) = s := by
            simp [stepSeal, hc]
          rw [hs]
          exact ⟨hcur, rfl⟩
        | some h0 =>
          by_cases hh : h0 = h
          · have hs : stepSeal s (SealEvent.found h n m) =
                ⟨none, s.delivered ++ [(h, n, m)]⟩ := by
              simp [stepSeal, hc, hh]
            rw [hs]
            have hne : h ≠ h1 := by
              intro he
              exact hcur (by rw [hc, hh, he])
            refine ⟨by simp, ?_⟩
            simp [List.filter_append, hne]
          · have hs : stepSeal s (SealEvent.found h n m) = s := by
              simp [stepSeal, hc, hh]
            rw [hs]
            exact ⟨hcur, rfl⟩
    obtain ⟨h1c, h1d⟩ := ih (stepSeal s ev) hstep.1 hno2
    exact ⟨h1c, h1d.trans hstep.2⟩

/-- C1: starting seal(h2) while the job for h1 is in flight makes h2 the
one current job (the h1 job is superseded and aborted), the h1 job is
never current again unless restarted, and no result for h1 is ever
delivered from that point on: the deliveries tagged h1 after the whole
trace are exactly those already made before seal(h2) started. -/
theorem c1_seal_supersede (t₁ t₂ : List SealEvent) (h1 h2 : Nat)
    (_hflight : (runSeal t₁).current = some h1)
    (hne : h2 ≠ h1)
    (hnostart : SealEvent.start h1 ∉ t₂) :
    (stepSeal (runSeal t₁) (SealEvent.start h2)).current = some h2 ∧
    (runSeal (t₁ ++ SealEvent.start h2 :: t₂)).current ≠ some h1 ∧
    (runSeal (t₁ ++ SealEvent.start h2 :: t₂)).delivered.filter (fun r => r.1 = h1) =
      (runSeal t₁).delivered.filter (fun r => r.1 = h1) := by
  unfold runSeal
  rw [List.foldl_append, List.foldl_cons]
  have hcur : (stepSeal (t₁.foldl stepSeal sealInit) (SealEvent.start h2)).current
      ≠ some h1 := by
    intro he
    exact hne (Option.some.inj he)
  obtain ⟨ha, hb⟩ := seal_never_again h1 t₂ _ hcur hnostart
  exact ⟨rfl, ha, hb⟩

/-- Witness for C1: seal header 1, then seal header 2 while the first job
is in flight, then a straggler worker of job 1 reports a solution; the
current job is 2, and nothing is ever delivered for header 1. -/
theorem c1_seal_supersede_witness :
    (stepSeal (runSeal [SealEvent.start 1]) (SealEvent.start 2)).current = some 2 ∧
    (runSeal ([SealEvent.start 1] ++ SealEvent.start 2 ::
        [SealEvent.found 1 5 7])).current ≠ some 1 ∧
    (runSeal ([SealEvent.start 1] ++ SealEvent.start 2 ::
        [SealEvent.found 1 5 7])).delivered.filter (fun r => r.1 = 1) =
      (runSeal [SealEvent.start 1]).delivered.filter (fun r => r.1 = 1) :=
  c1_seal_supersede [SealEvent.start 1] [SealEvent.found 1 5 7] 1 2
    (by decide) (by decide) (by decide)

/-- The empty registry satisfies the generation invariant. -/
theorem genInv_init (generate : Nat → List Nat) : genInv generate genInit := by
  refine ⟨?_, ?_, ?_, ?_⟩ <;> simp [genInit, genInv]

/-- One protocol step preserves the generation invariant. -/
theorem genInv_step (generate : Nat → List Nat) (s : GenState) (ev : GenEvent)
    (h : genInv generate s) : genInv generate (stepGen generate s ev) := by
  obtain ⟨h1, h2, h3, h4⟩ := h
  cases ev with
  | request tid e =>
    simp only [stepGen]
    by_cases hr : e ∈ s.ready
    · rw [if_pos hr]
      refine ⟨h1, h2, h3, ?_⟩
      intro d hd
      rcases List.mem_append.mp hd with hd | hd
      · exact h4 d hd
      · have := List.mem_singleton.mp hd
        subst this
        rfl
    · rw [if_neg hr]
      by_cases he : e ∈ s.entries
      · rw [if_pos he]
        exact ⟨h1, h2, h3, h4⟩
      · rw [if_neg he]
        refine ⟨?_, ?_, ?_, h4⟩
        · intro x
          simp only [List.mem_cons]
          exact or_congr Iff.rfl (h1 x)
        · exact List.nodup_cons.mpr ⟨fun hm => he ((h1 e).mp hm), h2⟩
        · intro x hx
          exact List.mem_cons_of_mem _ (h3 x hx)
  | finish e =>
    simp only [stepGen]
    by_cases hc : e ∈ s.entries ∧ e ∉ s.ready
    · rw [if_pos hc]
      refine ⟨h1, h2, ?_, ?_⟩
      · intro x hx
        rcases List.mem_cons.mp hx with hx | hx
        · subst hx
          exact hc.1
        · exact h3 x hx
      · intro d hd
        rcases List.mem_append.mp hd with hd | hd
        · exact h4 d hd
        · rcases List.mem_map.mp hd with ⟨p, _, hp2⟩
          subst hp2
          rfl
    · rw [if_neg hc]
      exact ⟨h1, h2, h3, h4⟩

/-- The generation invariant holds along any event trace. -/
theorem genInv_fold (generate : Nat → List Nat) (t : List GenEvent) :
    ∀ s : GenState, genInv generate s →
      genInv generate (t.foldl (stepGen generate) s) := by
  induction t with
  | nil => intro s h; exact h
  | cons ev t ih =>
    intro s h
    rw [List.foldl_cons]
    exact ih _ (genInv_step generate s ev h)

/-- An epoch with an entry keeps its entry across any further events. -/
theorem gen_entries_mono (generate : Nat → List Nat) (t : List GenEvent) :
    ∀ (s : GenState) (e : Nat), e ∈ s.entries →
      e ∈ (t.foldl (stepGen generate) s).entries := by
  induction t with
  | nil => intro s e h; exact h
  | cons ev t ih =>
    intro s e h
    rw [List.foldl_cons]
    apply ih
    cases ev with
    | request tid e2 =>
      simp only [stepGen]
      by_cases hr : e2 ∈ s.ready
      · rw [if_pos hr]; exact h
      · rw [if_neg hr]
        by_cases he : e2 ∈ s.entries
        · rw [if_pos he]; exact h
        · rw [if_neg he]; exact List.mem_cons_of_mem _ h
    | finish e2 =>
      simp only [stepGen]
      by_cases hc : e2 ∈ s.entries ∧ e2 ∉ s.ready
      · rw [if_pos hc]; exact h
      · rw [if_neg hc]; exact h

/-- A requested epoch ends the trace holding an entry. -/
theorem gen_request_entries (generate : Nat → List Nat) (t : List GenEvent) :
    ∀ (s : GenState) (tid e : Nat), genInv generate s →
      GenEvent.request tid e ∈ t →
      e ∈ (t.foldl (stepGen generate) s).entries := by
  induction t with
  | nil => intro s tid e _ hm; exact absurd hm (List.not_mem_nil _)
  | cons ev t ih =>
    intro s tid e hinv hm
    rw [List.foldl_cons]
    rcases List.mem_cons.mp hm with heq | hm2
    · subst heq
      apply gen_entries_mono
      simp only [stepGen]
      by_cases hr : e ∈ s.ready
      · rw [if_pos hr]
        exact hinv.2.2.1 e hr
      · rw [if_neg hr]
        by_cases he : e ∈ s.entries
        · rw [if_pos he]; exact he
        · rw [if_neg he]; exact List.mem_cons_self _ _
    · exact ih (stepGen generate s ev) tid e (genInv_step generate s ev hinv) hm2

/-- C2: along any interleaving of getCache requests and generation
completions, generation for an epoch is triggered at most once, exactly
once as soon as some thread has requested it, every delivered buffer is
the deterministic generate of its epoch, and any two callers served for
the same epoch receive bit-identical buffers. -/
theorem c2_shared_generation (generate : Nat → List Nat) (trace : List GenEvent)
    (e : Nat) :
    ((runGen generate trace).started.count e ≤ 1) ∧
    ((∃ tid, GenEvent.request tid e ∈ trace) →
      (runGen generate trace).started.count e = 1) ∧
    (∀ d ∈ (runGen generate trace).delivered, d.2.2 = generate d.2.1) ∧
    (∀ d₁ ∈ (runGen generate trace).delivered,
      ∀ d₂ ∈ (runGen generate trace).delivered,
        d₁.2.1 = d₂.2.1 → d₁.2.2 = d₂.2.2) := by
  have hinv : genInv generate (runGen generate trace) :=
    genInv_fold generate trace genInit (genInv_init generate)
  obtain ⟨h1, h2, h3, h4⟩ := hinv
  have hle : (runGen generate trace).started.count e ≤ 1 :=
    List.nodup_iff_count_le_one.mp h2 e
  refine ⟨hle, ?_, h4, ?_⟩
  · rintro ⟨tid, hreq⟩
    have hent : e ∈ (runGen generate trace).entries :=
      gen_request_entries generate trace genInit tid e (genInv_init generate) hreq
    have hmem : e ∈ (runGen generate trace).started := (h1 e).mpr hent
    have hpos : 0 < (runGen generate trace).started.count e :=
      List.count_pos_iff.mpr hmem
    omega
  · intro d₁ hd₁ d₂ hd₂ heq
    rw [h4 d₁ hd₁, h4 d₂ hd₂, heq]

/-- Witness for C2: two threads request epoch 5 concurrently and the
generation completes; it was triggered exactly once and both callers get
the generated buffer. -/
theorem c2_shared_generation_witness :
    (runGen (fun e => [e, e + 1])
      [GenEvent.request 0 5, GenEvent.request 1 5, GenEvent.finish 5]).started.count 5
      = 1 :=
  (c2_shared_generation (fun e => [e, e + 1])
    [GenEvent.request 0 5, GenEvent.request 1 5, GenEvent.finish 5] 5).2.1
    ⟨0, by decide⟩

/-- One access keeps both windows of a registry within bounds. -/
theorem accessEpoch_bounds (inMem onDisk : Nat) (generate : Nat → List Nat)
    (e : Nat) (st : LRUState)
    (hm : st.mem.length ≤ inMem) (hd : st.disk.length ≤ onDisk) :
    (accessEpoch inMem onDisk generate e st).2.mem.length ≤ inMem ∧
    (accessEpoch inMem onDisk generate e st).2.disk.length ≤ onDisk := by
  cases hf : st.mem.find? (fun p => p.1 == e) with
  | some hit =>
    simp only [accessEpoch, hf]
    constructor
    · have hmem : hit ∈ st.mem := List.mem_of_find?_eq_some hf
      have hp := List.find?_some hf
      have hlen := @List.length_eraseP_add_one _ (fun p => p.1 == e) st.mem hit hmem hp
      simp only [List.length_cons]
      omega
    · exact hd
  | none =>
    simp only [accessEpoch, hf]
    exact ⟨List.length_take_le _ _, List.length_take_le _ _⟩

/-- The window bounds of both registries hold along any access
sequence. -/
theorem runStore_bounds_aux (cfg : StoreConfig) (generateC generateD : Nat → List Nat)
    (accesses : List EpochAccess) :
    ∀ st : StoreState,
      st.caches.mem.length ≤ cfg.cachesInMem →
      st.caches.disk.length ≤ cfg.cachesOnDisk →
      st.datasets.mem.length ≤ cfg.datasetsInMem →
      st.datasets.disk.length ≤ cfg.datasetsOnDisk →
      (accesses.foldl (stepStore cfg generateC generateD) st).caches.mem.length
          ≤ cfg.cachesInMem ∧
      (accesses.foldl (stepStore cfg generateC generateD) st).caches.disk.length
          ≤ cfg.cachesOnDisk ∧
      (accesses.foldl (stepStore cfg generateC generateD) st).datasets.mem.length
          ≤ cfg.datasetsInMem ∧
      (accesses.foldl (stepStore cfg generateC generateD) st).datasets.disk.length
          ≤ cfg.datasetsOnDisk := by
  induction accesses with
  | nil => intro st h1 h2 h3 h4; exact ⟨h1, h2, h3, h4⟩
  | cons a rest ih =>
    intro st h1 h2 h3 h4
    rw [List.foldl_cons]
    cases a with
    | cache e =>
      exact ih _
        (accessEpoch_bounds cfg.cachesInMem cfg.cachesOnDisk generateC e st.caches h1 h2).1
        (accessEpoch_bounds cfg.cachesInMem cfg.cachesOnDisk generateC e st.caches h1 h2).2
        h3 h4
    | dataset e full =>
      exact ih _ h1 h2
        (accessEpoch_bounds cfg.datasetsInMem cfg.datasetsOnDisk generateD e
          st.datasets h3 h4).1
        (accessEpoch_bounds cfg.datasetsInMem cfg.datasetsOnDisk generateD e
          st.datasets h3 h4).2

/-- C4: along every sequence of epoch accesses, in any interleaving of
getCache and getDataset, the number of in-memory items never exceeds the
InMem window and the number of on-disk files never exceeds the OnDisk
window, for each registry independently. -/
theorem c4_lru_bounds (cfg : StoreConfig) (generateC generateD : Nat → List Nat)
    (accesses : List EpochAccess) :
    (runStore cfg generateC generateD accesses).caches.mem.length
        ≤ cfg.cachesInMem ∧
    (runStore cfg generateC generateD accesses).caches.disk.length
        ≤ cfg.cachesOnDisk ∧
    (runStore cfg generateC generateD accesses).datasets.mem.length
        ≤ cfg.datasetsInMem ∧
    (runStore cfg generateC generateD accesses).datasets.disk.length
        ≤ cfg.datasetsOnDisk :=
  runStore_bounds_aux cfg generateC generateD accesses storeInit
    (Nat.zero_le _) (Nat.zero_le _) (Nat.zero_le _) (Nat.zero_le _)
